import Mathlib

/-!
Verification development for the resume-builder document exporter.

The exporter exists in two revisions in the repository, both exporting a
class `PDFGenerator` with a static `generateTextPDF`:
* revision A (src/unnamed/part_001): the richer revision, with an NFKD
  normalisation step in `cleanText`, reference validation, a heuristic
  skills filter and a two-column skills layout;
* revision B (src/unnamed/part_002): the earlier revision, with a plain
  `cleanText`, no skills filter, and two early `return` statements in the
  skills section.

JavaScript strings are modelled as `List Char` (Unicode code points; every
character class appearing in the source is a single BMP code unit, so the
code-unit and code-point views agree on all inputs the claims touch).
The one operation that cannot be embedded is `String.prototype.normalize
('NFKD')` in revision A; it is kept as an explicit function parameter
`nfkd`, constrained only by the (true) fact that Unicode NFKD fixes every
string of printable-ASCII characters.
-/

/-- Printable ASCII range x20-x7E: the characters KEPT by the first replace of `cleanText` (`.replace(/[^\x20-\x7E]/g, '')`, part_001 line 140, part_002 line 133). -/
def isPrintAscii (c : Char) : Bool :=
  0x20 ≤ c.toNat && c.toNat ≤ 0x7E

/-- The bullet/dash glyphs removed by `cleanText` (`.replace(/[-•·‣▪▫▸▶●]/g, '')`). -/
def isBulletGlyph (c : Char) : Bool :=
  c = '-' || c = '•' || c = '·' || c = '‣' || c = '▪' || c = '▫' ||
  c = '▸' || c = '▶' || c = '●'

/-- Control characters removed by revision A's `cleanText` (`.replace(/[\x00-\x1F\x7F]/g, '')`, part_001 line 142); a no-op after the printable-ASCII filter. -/
def isCtl (c : Char) : Bool :=
  c.toNat ≤ 0x1F || c.toNat = 0x7F

/-- The JavaScript `\s` character class, which is also the set removed by `String.prototype.trim`. -/
def jsWs (c : Char) : Bool :=
  c.toNat = 0x09 || c.toNat = 0x0A || c.toNat = 0x0B || c.toNat = 0x0C ||
  c.toNat = 0x0D || c.toNat = 0x20 || c.toNat = 0xA0 || c.toNat = 0x1680 ||
  (0x2000 ≤ c.toNat && c.toNat ≤ 0x200A) || c.toNat = 0x2028 ||
  c.toNat = 0x2029 || c.toNat = 0x202F || c.toNat = 0x205F ||
  c.toNat = 0x3000 || c.toNat = 0xFEFF

/-- Embedding of `.replace(/\s+/g, ' ')`: each maximal run of whitespace becomes a single space.  A whitespace character followed by another whitespace character is dropped; the last character of each run becomes `' '`. -/
def collapseWs : List Char → List Char
  | [] => []
  | [c] => if jsWs c then [' '] else [c]
  | a :: b :: r =>
    if jsWs a && jsWs b then collapseWs (b :: r)
    else (if jsWs a then ' ' else a) :: collapseWs (b :: r)

/-- Embedding of `String.prototype.trim`: drop `\s` characters from both ends. -/
def trimWs (l : List Char) : List Char :=
  (((l.dropWhile (fun c => jsWs c)).reverse).dropWhile (fun c => jsWs c)).reverse

/-- No two adjacent whitespace characters (no run of two or more whitespace characters). -/
def WsAdjFree (l : List Char) : Prop :=
  l.Chain' (fun a b => ¬(jsWs a = true ∧ jsWs b = true))

/-- `cleanText` of revision B (part_002 lines 130-137): strip non-printable-ASCII, strip bullet/dash glyphs, collapse whitespace runs, trim.  The non-string/empty guard on its `unknown`-typed argument is modelled separately by `cleanTextJS`. -/
def cleanText (s : List Char) : List Char :=
  trimWs (collapseWs
    ((s.filter (fun c => isPrintAscii c)).filter (fun c => !isBulletGlyph c)))

/-- `cleanText` of revision A (part_001 lines 136-155): the same pipeline preceded by `.normalize('NFKD')` (the abstract parameter `nfkd`) and followed by a control-character strip; the debug logging does not change the returned value and is omitted. -/
def cleanTextNFKD (nfkd : List Char → List Char) (s : List Char) : List Char :=
  trimWs (collapseWs
    ((((nfkd s).filter (fun c => isPrintAscii c)).filter
        (fun c => !isBulletGlyph c)).filter (fun c => !isCtl c)))

/-- Unicode NFKD restricted to the printable-ASCII strings fed to it by the concrete theorems below, on which real NFKD is the identity. -/
def nfkdOnAscii : List Char → List Char := fun s => s
/-- `String.prototype.toLowerCase`, modelled on the ASCII range its call sites reach (`Char.toLower` maps exactly A-Z to a-z). -/
def lowerStr (s : List Char) : List Char := s.map Char.toLower

/-- Decimal digit character, used to build the concrete `YYYY-MM` inputs of claim C9. -/
def digitChar (n : ℕ) : Char :=
  match n with
  | 0 => '0' | 1 => '1' | 2 => '2' | 3 => '3' | 4 => '4'
  | 5 => '5' | 6 => '6' | 7 => '7' | 8 => '8' | 9 => '9' | _ => '0'

/-- Numeric value of a decimal digit character, as read by the ISO date parser. -/
def digitVal? (c : Char) : Option ℕ :=
  if '0' ≤ c ∧ c ≤ '9' then some (c.toNat - 48) else none

/-- Model of JavaScript `new Date(s)` for the strings `formatDate` builds (`date + '-01'`): the ISO form `YYYY-MM-DD` with the day literally `01` parses to (year, month) when the month is 01-12; everything else is an Invalid Date.  `new Date` never throws on any string, so the source's catch block is unreachable. -/
def jsParseYMD01 (l : List Char) : Option (ℕ × ℕ) :=
  match l with
  | [a, b, c, d, h1, e, f, h2, g, i] =>
    if h1 = '-' ∧ h2 = '-' ∧ g = '0' ∧ i = '1' then
      match digitVal? a, digitVal? b, digitVal? c, digitVal? d, digitVal? e, digitVal? f with
      | some va, some vb, some vc, some vd, some ve, some vf =>
        let yv := 1000 * va + 100 * vb + 10 * vc + vd
        let mv := 10 * ve + vf
        if 1 ≤ mv ∧ mv ≤ 12 then some (yv, mv) else none
      | _, _, _, _, _, _ => none
    else none
  | _ => none

/-- The en-US short month names produced by `toLocaleString('en-US', ... month short ...)`. -/
def monthAbbrev (m : ℕ) : List Char :=
  (match m with
   | 1 => "Jan" | 2 => "Feb" | 3 => "Mar" | 4 => "Apr" | 5 => "May" | 6 => "Jun"
   | 7 => "Jul" | 8 => "Aug" | 9 => "Sep" | 10 => "Oct" | 11 => "Nov" | 12 => "Dec"
   | _ => "").data

/-- The en-US numeric year rendering: unpadded decimal digits. -/
def natDigits (n : ℕ) : List Char := (Nat.repr n).data

/-- `formatDate` of both revisions (part_001 lines 187-199, part_002 lines 139-151; they differ only in `toLocaleString` vs `toLocaleDateString`, which agree under these options).  The host timezone is fixed to UTC, under which the UTC midnight that ISO parsing produces renders with the month as written.  An unparseable date renders as the string "Invalid Date" because the `Date` constructor does not throw. -/
def formatDate (date : Option (List Char)) (isEndDate : Bool) : List Char :=
  match date with
  | none => if isEndDate then "Present".data else []
  | some d =>
    if d.isEmpty then (if isEndDate then "Present".data else [])
    else if lowerStr d = "present".data then "Present".data
    else
      match jsParseYMD01 (d ++ "-01".data) with
      | some (yv, mv) => monthAbbrev mv ++ ' ' :: natDigits yv
      | none => "Invalid Date".data

/-- Two-digit zero-padded rendering, to build `MM` month components. -/
def pad2 (n : ℕ) : List Char := [digitChar (n / 10 % 10), digitChar (n % 10)]

/-- Four-digit zero-padded rendering, to build `YYYY` year components. -/
def pad4 (n : ℕ) : List Char :=
  [digitChar (n / 1000 % 10), digitChar (n / 100 % 10),
   digitChar (n / 10 % 10), digitChar (n % 10)]

/-- The flow-engine state threaded through every renderer: the vertical cursor `yPosition` and the (implicit, 1-based) page count. -/
structure LayoutState where
  y : ℚ
  page : ℕ
deriving DecidableEq

/-- `config.pageHeight` for an A4 page in millimetres (nominal 297; jsPDF reports 297.0000833...; no comparison in the claims depends on the fraction). -/
def pageHeightMm : ℚ := 297

/-- `config.margin = 15` (part_001 line 115, part_002 line 110). -/
def marginMm : ℚ := 15

/-- `checkPageBreak(requiredSpace)` of both revisions (part_001 lines 201-208, part_002 lines 153-160): if the cursor plus the required space would pass `pageHeight - 20`, add a page, reset the cursor to the top margin and report `true`; otherwise change nothing and report `false`. -/
def checkPageBreak (requiredSpace : ℚ) (st : LayoutState) : LayoutState × Bool :=
  if st.y + requiredSpace > pageHeightMm - 20 then
    (⟨marginMm, st.page + 1⟩, true)
  else (st, false)

/-- `settings.lineHeight = 4.5` of revision A's skills section (part_001 line 563). -/
def skillsLineHeight : ℚ := 4.5

/-- One column loop of `renderSkillsInColumns` (part_001 lines 582-586 resp. 588-592): per skill, `checkPageBreak(lineHeight)` then `yPosition += lineHeight`; the returned list records the state after each of the two mutations. -/
def colLoopTrace : List (List Char) → LayoutState → List LayoutState
  | [], _ => []
  | _ :: rest, st =>
    let s1 := (checkPageBreak skillsLineHeight st).1
    let s2 : LayoutState := ⟨s1.y + skillsLineHeight, s1.page⟩
    s1 :: s2 :: colLoopTrace rest s2

/-- The state at the end of a trace (its last entry, or the starting state for an empty trace). -/
def lastState (st : LayoutState) (tr : List LayoutState) : LayoutState :=
  (tr.getLast?).getD st

/-- Cursor trace of `renderSkillsInColumns` (part_001 lines 575-594): split at the ceiling half, draw the left column, REWIND the cursor to `startY` (line 587), draw the right column, then set the cursor to `startY + max(column lengths) * lineHeight` (line 593).  The trace starts with the initial state and records every cursor mutation. -/
def renderSkillsInColumnsTrace (skills : List (List Char)) (st : LayoutState) :
    List LayoutState :=
  let midpoint := (skills.length + 1) / 2
  let leftColumn := skills.take midpoint
  let rightColumn := skills.drop midpoint
  let startY := st.y
  let t1 := colLoopTrace leftColumn st
  let s1 := lastState st t1
  let s2 : LayoutState := ⟨startY, s1.page⟩
  let t2 := colLoopTrace rightColumn s2
  let s3 := lastState s2 t2
  let s4 : LayoutState :=
    ⟨startY + (max leftColumn.length rightColumn.length : ℕ) * skillsLineHeight, s3.page⟩
  st :: (t1 ++ s2 :: t2 ++ [s4])

/-- Within-page monotonicity of a cursor trace: every adjacent pair either advances the page or does not decrease the cursor. -/
def pageMonoOk : List LayoutState → Bool
  | a :: b :: r => (decide (a.page < b.page) || decide (a.y ≤ b.y)) && pageMonoOk (b :: r)
  | _ => true

/-- The two layouts of revision A's skills section: a two-column split or a single flowing line. -/
inductive SkillsLayout
  | columns : List (List Char) → List (List Char) → SkillsLayout
  | horizontal : List (List Char) → SkillsLayout
deriving DecidableEq

/-- `settings.minSkillsForColumns = 4` (part_001 line 569). -/
def minSkillsForColumns : ℕ := 4

/-- The layout dispatch of revision A (part_001 lines 612-616) combined with the column split of `renderSkillsInColumns` (lines 576-578): at `minSkillsForColumns` or more skills the first `ceil(n/2)` go to the left column and the rest to the right; below the threshold the skills flow on a single line. -/
def skillsLayoutChoice (skillsArray : List (List Char)) : SkillsLayout :=
  if minSkillsForColumns ≤ skillsArray.length then
    SkillsLayout.columns (skillsArray.take ((skillsArray.length + 1) / 2))
      (skillsArray.drop ((skillsArray.length + 1) / 2))
  else SkillsLayout.horizontal skillsArray

/-- Discriminator for `SkillsLayout.columns`. -/
def isColumnsLayout : SkillsLayout → Bool
  | SkillsLayout.columns _ _ => true
  | SkillsLayout.horizontal _ => false

def isUpperAlpha (c : Char) : Bool := 'A' ≤ c && c ≤ 'Z'

def isLowerAlpha (c : Char) : Bool := 'a' ≤ c && c ≤ 'z'

def isAsciiLetter (c : Char) : Bool := isUpperAlpha c || isLowerAlpha c

/-- The fixed stoplist of `isValidSkill` (part_001 lines 528-531). -/
def excludeWords : List (List Char) :=
  ["early".data, "looking".data, "public".data, "start".data, "stage".data,
   "sector".data, "mobility".data, "transportation".data, "revolutionize".data,
   "production".data]

/-- The acronym pattern `/^[A-Z]\x7b2,\x7d$/`: two or more characters, all uppercase A-Z. -/
def allCaps2 (s : List Char) : Bool := 2 ≤ s.length && s.all isUpperAlpha

/-- The pattern `/CAD$/i`: ends case-insensitively in "cad". -/
def endsCadCI (s : List Char) : Bool := List.isPrefixOf "dac".data (lowerStr s).reverse

/-- Zero or more lowercase letters followed by an uppercase letter. -/
def capAfterLows : List Char → Bool
  | c :: rest => isUpperAlpha c || (isLowerAlpha c && capAfterLows rest)
  | [] => false

/-- The pattern `/^[A-Z][a-z]+[A-Z]/`: an uppercase letter, one or more lowercase letters, then an uppercase letter, anywhere-suffix free (anchored at the start only). -/
def hasInternalCap : List Char → Bool
  | c0 :: c1 :: rest => isUpperAlpha c0 && isLowerAlpha c1 && capAfterLows rest
  | _ => false

/-- Substring test: some suffix of the haystack begins with the needle. -/
def containsSub (needle : List Char) : List Char → Bool
  | [] => needle.isEmpty
  | c :: rest => List.isPrefixOf needle (c :: rest) || containsSub needle rest

/-- Case-insensitive substring test, embedding the unanchored patterns `/Linux|Windows|Mac/i` and `/SQL|Python|Java|JavaScript|HTML|CSS/i` one alternative at a time. -/
def containsCI (needle hay : List Char) : Bool :=
  containsSub needle (lowerStr hay)

/-- `technicalPatterns.some(pattern => pattern.test(cleanSkill))` (part_001 lines 533-540). -/
def isTechnicalSkill (cleanSkill : List Char) : Bool :=
  allCaps2 cleanSkill || endsCadCI cleanSkill || hasInternalCap cleanSkill ||
  containsCI "linux".data cleanSkill || containsCI "windows".data cleanSkill ||
  containsCI "mac".data cleanSkill ||
  containsCI "sql".data cleanSkill || containsCI "python".data cleanSkill ||
  containsCI "java".data cleanSkill || containsCI "javascript".data cleanSkill ||
  containsCI "html".data cleanSkill || containsCI "css".data cleanSkill

/-- The pattern `/^[A-Z]/`. -/
def startsWithCapital (s : List Char) : Bool :=
  match s.head? with
  | some c => isUpperAlpha c
  | none => false

/-- `isValidSkill` of revision A (part_001 lines 525-543): trim, reject under 3 characters, reject stoplist words, else accept technical-looking, capitalized, or longer-than-4 tokens. -/
def isValidSkill (skill : List Char) : Bool :=
  let cleanSkill := trimWs skill
  if cleanSkill.length < 3 then false
  else if excludeWords.contains (lowerStr cleanSkill) then false
  else
    isTechnicalSkill cleanSkill || startsWithCapital cleanSkill ||
      decide (4 < cleanSkill.length)

/-- A skill entry as the exporter receives it: a bare string, or an object whose `name`/`skill`/`title` fields may each be absent. -/
inductive SkillInput
  | str : List Char → SkillInput
  | obj : Option (List Char) → Option (List Char) → Option (List Char) → SkillInput

/-- JavaScript truthiness of a possibly-absent string: `undefined` and `""` are falsy. -/
def optTruthy : Option (List Char) → Bool
  | none => false
  | some s => !s.isEmpty

/-- `skill.name || skill.skill || skill.title || ''` (part_001 line 549). -/
def firstTruthyStr (a b c : Option (List Char)) : List Char :=
  if optTruthy a then a.getD []
  else if optTruthy b then b.getD []
  else if optTruthy c then c.getD []
  else []

/-- The first map of revision A's skills pipeline (part_001 lines 547-552). -/
def toDisplayName : SkillInput → List Char
  | SkillInput.str s => s
  | SkillInput.obj name skill title => firstTruthyStr name skill title

/-- `skill.charAt(0).toUpperCase() + skill.slice(1)` (part_001 line 555); `Char.toUpper` matches the ASCII inputs this call site sees. -/
def capitalizeFirst : List Char → List Char
  | [] => []
  | c :: r => c.toUpper :: r

/-- Case-insensitive lexicographic comparison, modelling `a.localeCompare(b, undefined, sensitivity base)` on the ASCII strings reaching the sort. -/
def lexLeCI : List Char → List Char → Bool
  | [], _ => true
  | _ :: _, [] => false
  | a :: as, b :: bs =>
    if Char.toLower a = Char.toLower b then lexLeCI as bs
    else decide (Char.toLower a < Char.toLower b)

/-- Insertion into a sorted list under `lexLeCI`. -/
def insertSorted (x : List Char) : List (List Char) → List (List Char)
  | [] => [x]
  | y :: ys => if lexLeCI x y then x :: y :: ys else y :: insertSorted x ys

/-- Insertion sort under `lexLeCI`, modelling `Array.prototype.sort` with the case-insensitive comparator (part_001 line 556). -/
def sortSkills (l : List (List Char)) : List (List Char) :=
  l.foldr insertSorted []

/-- The skills pipeline of revision A (part_001 lines 545-557): map to display names, clean, keep non-empty valid skills, capitalize, sort case-insensitively. -/
def skillsArray1 (nfkd : List Char → List Char) (skills : List SkillInput) :
    List (List Char) :=
  sortSkills
    ((((skills.map toDisplayName).map (cleanTextNFKD nfkd)).filter
        (fun s => !s.isEmpty && isValidSkill s)).map capitalizeFirst)

/-- Split a string at its first `'@'`, if any. -/
def splitAtFirstAt : List Char → Option (List Char × List Char)
  | [] => none
  | c :: r =>
    if c = '@' then some ([], r)
    else
      match splitAtFirstAt r with
      | some (lp, dom) => some (c :: lp, dom)
      | none => none

/-- A `'.'` occurs at some non-final position. -/
def hasDotNotLast : List Char → Bool
  | [] => false
  | [_] => false
  | c :: rest => (c = '.') || hasDotNotLast rest

/-- The domain part matches `[^\s@]+\.[^\s@]+`: an interior dot with at least one character on each side (character-class membership is checked separately). -/
def domainOk : List Char → Bool
  | [] => false
  | _ :: rest => hasDotNotLast rest

/-- `isValidEmail` (part_001 lines 157-160), embedding `/^[^\s@]+@[^\s@]+\.[^\s@]+$/`: a match is exactly a split `local @ domain` at the unique `'@'`, with a non-empty whitespace-free local part and a whitespace-free, at-free domain containing an interior dot. -/
def isValidEmail (s : List Char) : Bool :=
  match splitAtFirstAt s with
  | some (lp, dom) =>
    !lp.isEmpty && lp.all (fun c => !jsWs c) &&
      dom.all (fun c => !jsWs c && !(c = '@')) && domainOk dom
  | none => false

/-- `isValidName` (part_001 lines 162-164): `name.length > 1 && name.length < 100 && /[a-zA-Z]/.test(name)`. -/
def isValidName (name : List Char) : Bool :=
  decide (1 < name.length) && decide (name.length < 100) && name.any isAsciiLetter

/-- A reference record (the `Reference` interface): every field optional. -/
structure Reference where
  name : Option (List Char) := none
  title : Option (List Char) := none
  company : Option (List Char) := none
  relationship : Option (List Char) := none
  email : Option (List Char) := none
  phone : Option (List Char) := none
deriving DecidableEq

/-- The fixed placeholder installed for an invalid or missing reference name. -/
def placeholderName : List Char := "Reference Name Not Provided".data

/-- `validateReference` of revision A (part_001 lines 166-185): an untruthy or (after cleaning) invalid name becomes the placeholder; a truthy email whose cleaned form fails `isValidEmail` is cleared to `undefined`; truthy title/company/relationship/phone are passed through the sanitizer; the `console.warn` calls are omitted. -/
def validateReference (nfkd : List Char → List Char) (ref : Reference) : Reference :=
  { name :=
      if !optTruthy ref.name || !isValidName (cleanTextNFKD nfkd (ref.name.getD [])) then
        some placeholderName
      else ref.name,
    email :=
      if optTruthy ref.email && !isValidEmail (cleanTextNFKD nfkd (ref.email.getD [])) then
        none
      else ref.email,
    title :=
      if optTruthy ref.title then some (cleanTextNFKD nfkd (ref.title.getD []))
      else ref.title,
    company :=
      if optTruthy ref.company then some (cleanTextNFKD nfkd (ref.company.getD []))
      else ref.company,
    relationship :=
      if optTruthy ref.relationship then some (cleanTextNFKD nfkd (ref.relationship.getD []))
      else ref.relationship,
    phone :=
      if optTruthy ref.phone then some (cleanTextNFKD nfkd (ref.phone.getD []))
      else ref.phone }

/-- The JavaScript values `cleanText`'s `unknown`-typed parameter can receive. -/
inductive JSVal
  | nullV
  | undefV
  | boolV : Bool → JSVal
  | numV : ℚ → JSVal
  | strV : List Char → JSVal
  | objV
  | arrV

/-- `typeof text === 'string'`. -/
def isStringVal : JSVal → Bool
  | JSVal.strV _ => true
  | _ => false

/-- `cleanText` including its guard `if (!text || typeof text !== 'string') return ''` (part_001 line 137, part_002 line 131): non-strings and the empty string yield the empty string; the pipeline itself is total, so `cleanText` never raises. -/
def cleanTextJS : JSVal → List Char
  | JSVal.strV s => if s.isEmpty then [] else cleanText s
  | _ => []

/-- The `Personal` interface. -/
structure PersonalRec where
  fullName : Option (List Char) := none
  email : Option (List Char) := none
  phone : Option (List Char) := none
  location : Option (List Char) := none
  summary : Option (List Char) := none

/-- The `Experience` interface. -/
structure ExperienceRec where
  position : Option (List Char) := none
  company : Option (List Char) := none
  startDate : Option (List Char) := none
  endDate : Option (List Char) := none
  location : Option (List Char) := none
  description : Option (List Char) := none

/-- The `Education` interface of revision A (revision B lacks the courses/honors fields; the generator models below never read them). -/
structure EducationRec where
  degree : Option (List Char) := none
  school : Option (List Char) := none
  startDate : Option (List Char) := none
  endDate : Option (List Char) := none
  location : Option (List Char) := none
  gpa : Option (List Char) := none
  description : Option (List Char) := none
  courses : Option (List Char) := none
  honors : Option (List Char) := none

/-- The `Project` interface. -/
structure ProjectRec where
  name : Option (List Char) := none
  startDate : Option (List Char) := none
  endDate : Option (List Char) := none
  technologies : Option (List Char) := none
  description : Option (List Char) := none
  link : Option (List Char) := none

/-- The `Certification` interface. -/
structure CertificationRec where
  name : Option (List Char) := none
  issuer : Option (List Char) := none
  date : Option (List Char) := none
  expiration : Option (List Char) := none
  credentialId : Option (List Char) := none
  verificationLink : Option (List Char) := none

/-- The `Language` interface. -/
structure LanguageRec where
  language : Option (List Char) := none
  proficiency : Option (List Char) := none

/-- The `ResumeData` interface: every section optional; skills may mix strings and objects. -/
structure ResumeDataM where
  personal : Option PersonalRec := none
  experience : Option (List ExperienceRec) := none
  education : Option (List EducationRec) := none
  skills : Option (List SkillInput) := none
  projects : Option (List ProjectRec) := none
  certifications : Option (List CertificationRec) := none
  languages : Option (List LanguageRec) := none
  interests : Option (List (List Char)) := none
  references : Option (List Reference) := none

/-- Truthiness of `arr?.length`: `undefined` and `[]` are falsy. -/
def optListTruthy {α : Type} : Option (List α) → Bool
  | none => false
  | some l => !l.isEmpty

/-- The section array is missing or empty. -/
def optListEmpty {α : Type} : Option (List α) → Bool
  | none => true
  | some l => l.isEmpty

/-- Control-flow outcome of one `generateTextPDF` run at section granularity: the `addSectionHeader` titles emitted in order, and whether `pdf.save(filename)` was reached.  Per-record drawing cannot influence either (no early exit except `continue`, and jsPDF's drawing primitives do not throw on these inputs), so it is abstracted away. -/
structure GenResult where
  sections : List (List Char)
  saved : Bool

/-- Revision B's skills map (part_002 line 398): an object's truthy `name`, else `String(skill)` - which for an object is `"[object Object]"`. -/
def toName2 : SkillInput → List Char
  | SkillInput.str s => s
  | SkillInput.obj name _ _ =>
    if optTruthy name then name.getD [] else "[object Object]".data

/-- Section-level model of revision A's `generateTextPDF` (part_001): every section is wrapped in a guard, the skills header is emitted only when the filtered `skillsArray` is non-empty (lines 559-560), and control always reaches `pdf.save` (line 974). -/
def gen1 (nfkd : List Char → List Char) (rd : ResumeDataM) : GenResult :=
  let s1 : List (List Char) :=
    if optTruthy (rd.personal.bind PersonalRec.summary) then
      ["Executive Summary".data] else []
  let s2 := s1 ++ (if optListTruthy rd.experience then
      ["Professional Experience".data] else [])
  let s3 := s2 ++ (if optListTruthy rd.education then ["Education".data] else [])
  let s4 := s3 ++ (if optListTruthy rd.skills &&
        !(skillsArray1 nfkd (rd.skills.getD [])).isEmpty then
      ["Core Competencies & Technical Skills".data] else [])
  let s5 := s4 ++ (if optListTruthy rd.projects then [" Projects".data] else [])
  let s6 := s5 ++ (if optListTruthy rd.certifications then
      [" Certifications".data] else [])
  let s7 := s6 ++ (if optListTruthy rd.languages then ["Languages".data] else [])
  let s8 := s7 ++ (if optListTruthy rd.interests then [" Interests".data] else [])
  let s9 := s8 ++ (if optListTruthy rd.references then [" References".data] else [])
  ⟨s9, true⟩

/-- Section-level model of revision B's `generateTextPDF` (part_002): after the education section, `if (!resumeData.skills?.length) return;` (line 393) leaves the function BEFORE `pdf.save` (line 649); a second early return follows at line 401 when the mapped-and-filtered skills array is empty, after the header was already emitted (line 395). -/
def gen2 (rd : ResumeDataM) : GenResult :=
  let s1 : List (List Char) :=
    if optTruthy (rd.personal.bind PersonalRec.summary) then
      ["Executive Summary".data] else []
  let s2 := s1 ++ (if optListTruthy rd.experience then
      ["Professional Experience".data] else [])
  let s3 := s2 ++ (if optListTruthy rd.education then ["Education".data] else [])
  if !optListTruthy rd.skills then ⟨s3, false⟩
  else
    let s4 := s3 ++ ["Core Competencies & Technical Skills".data]
    let skillsArr := ((rd.skills.getD []).map toName2).filter
      (fun s => !(trimWs s).isEmpty)
    if skillsArr.isEmpty then ⟨s4, false⟩
    else
      let s5 := s4 ++ (if optListTruthy rd.projects then
          ["Notable Projects".data] else [])
      let s6 := s5 ++ (if optListTruthy rd.certifications then
          ["Professional Certifications".data] else [])
      let s7 := s6 ++ (if optListTruthy rd.languages then ["Languages".data] else [])
      let s8 := s7 ++ (if optListTruthy rd.interests then
          ["Professional Interests".data] else [])
      let s9 := s8 ++ (if optListTruthy rd.references then
          ["Professional References".data] else [])
      ⟨s9, true⟩

/-- The end-to-end document of the claim: only `personal.fullName` set, every section array present and empty. -/
def janeDoe : ResumeDataM :=
  { personal := some { fullName := some "Jane Doe".data },
    experience := some [], education := some [], skills := some [],
    projects := some [], certifications := some [], languages := some [],
    interests := some [], references := some [] }

/-- Among printable-ASCII characters the only JavaScript whitespace is the space. -/
theorem keep_ws_eq_space {c : Char} (h1 : isPrintAscii c = true)
    (h2 : jsWs c = true) : c = ' ' := by
  have ha : 0x20 ≤ c.toNat ∧ c.toNat ≤ 0x7E := by
    simpa [isPrintAscii, Bool.and_eq_true, decide_eq_true_eq] using h1
  have hw : c.toNat = 32 := by
    simp only [jsWs, Bool.or_eq_true, Bool.and_eq_true, decide_eq_true_eq] at h2
    omega
  have h := Char.ofNat_toNat c
  rw [hw] at h
  exact h.symm

/-- Whitespace collapsing only ever introduces the space character. -/
theorem mem_collapseWs : ∀ l, ∀ c ∈ collapseWs l, c = ' ' ∨ c ∈ l
  | [] => by simp [collapseWs]
  | [a] => by
    intro c hc
    by_cases h : jsWs a = true
    · simp [collapseWs, h] at hc; exact Or.inl hc
    · simp [collapseWs, h] at hc; simp [hc]
  | a :: b :: r => by
    intro c hc
    by_cases h : (jsWs a && jsWs b) = true
    · simp only [collapseWs, h, if_true] at hc
      rcases mem_collapseWs (b :: r) c hc with h1 | h1
      · exact Or.inl h1
      · exact Or.inr (List.mem_cons_of_mem _ h1)
    · rw [collapseWs, if_neg h] at hc
      rcases List.mem_cons.mp hc with h1 | h1
      · by_cases ha : jsWs a = true
        · simp [ha] at h1; exact Or.inl h1
        · simp [ha] at h1; simp [h1]
      · rcases mem_collapseWs (b :: r) c h1 with h2 | h2
        · exact Or.inl h2
        · exact Or.inr (List.mem_cons_of_mem _ h2)

/-- The collapsed form of a non-empty list starts with its first character, a run-initial whitespace character becoming a space. -/
theorem collapseWs_cons_head : ∀ (r : List Char) (b : Char),
    ∃ t, collapseWs (b :: r) = (if jsWs b then ' ' else b) :: t := by
  intro r
  induction r with
  | nil =>
    intro b
    by_cases hb : jsWs b = true <;> exact ⟨[], by simp [collapseWs, hb]⟩
  | cons c r ih =>
    intro b
    by_cases h : (jsWs b && jsWs c) = true
    · obtain ⟨t, ht⟩ := ih c
      have hbc : jsWs b = true ∧ jsWs c = true := by simpa using h
      exact ⟨t, by rw [collapseWs, if_pos h, ht, if_pos hbc.2, if_pos hbc.1]⟩
    · exact ⟨collapseWs (c :: r), by rw [collapseWs, if_neg h]⟩

/-- Whitespace collapsing leaves no two adjacent whitespace characters. -/
theorem wsAdjFree_collapseWs : ∀ l, WsAdjFree (collapseWs l)
  | [] => by simp [collapseWs, WsAdjFree]
  | [a] => by by_cases h : jsWs a = true <;> simp [collapseWs, WsAdjFree, h]
  | a :: b :: r => by
    have ih := wsAdjFree_collapseWs (b :: r)
    by_cases h : (jsWs a && jsWs b) = true
    · unfold WsAdjFree at ih ⊢
      rw [collapseWs, if_pos h]
      exact ih
    · obtain ⟨t, ht⟩ := collapseWs_cons_head r b
      have hx : jsWs (if jsWs a then ' ' else a) = jsWs a := by
        by_cases ha : jsWs a = true <;> simp [ha] <;> decide
      have hy : jsWs (if jsWs b then ' ' else b) = jsWs b := by
        by_cases hb : jsWs b = true <;> simp [hb] <;> decide
      unfold WsAdjFree at ih ⊢
      rw [collapseWs, if_neg h, ht, List.chain'_cons]
      refine ⟨?_, ht ▸ ih⟩
      rw [hx, hy]
      intro hab
      have : (jsWs a && jsWs b) = true := by simp [hab.1, hab.2]
      exact h this

/-- A printable-ASCII string with no adjacent whitespace is a fixed point of whitespace collapsing. -/
theorem collapseWs_eq_self : ∀ l, (∀ c ∈ l, isPrintAscii c = true) →
    WsAdjFree l → collapseWs l = l
  | [] => fun _ _ => rfl
  | [a] => fun hk _ => by
    by_cases ha : jsWs a = true
    · have : a = ' ' := keep_ws_eq_space (hk a (by simp)) ha
      simp [collapseWs, ha, this]
    · simp [collapseWs, ha]
  | a :: b :: r => fun hk hn => by
    have hab : ¬(jsWs a = true ∧ jsWs b = true) := (List.chain'_cons.mp hn).1
    have h : ¬(jsWs a && jsWs b) = true := by
      intro hcon
      exact hab (by simpa using hcon)
    have ih := collapseWs_eq_self (b :: r)
      (fun c hc => hk c (List.mem_cons_of_mem _ hc)) (List.Chain'.tail hn)
    by_cases ha : jsWs a = true
    · have hsp : a = ' ' := keep_ws_eq_space (hk a (by simp)) ha
      rw [collapseWs, if_neg h, if_pos ha, ih, hsp]
    · rw [collapseWs, if_neg h, if_neg ha, ih]

/-- The head surviving a `dropWhile` fails the predicate. -/
theorem head?_dropWhile_not (p : Char → Bool) :
    ∀ (l : List Char) (c : Char), (l.dropWhile p).head? = some c → p c = false := by
  intro l
  induction l with
  | nil => intro c h; simp [List.dropWhile] at h
  | cons a r ih =>
    intro c h
    rw [List.dropWhile_cons] at h
    by_cases ha : p a = true
    · exact ih c (by simpa [ha] using h)
    · simp [ha] at h
      exact h ▸ (Bool.not_eq_true _ |>.mp ha)

/-- A non-empty `dropWhile` result keeps the original last element. -/
theorem getLast?_dropWhile_ne_nil (p : Char → Bool) :
    ∀ (l : List Char), l.dropWhile p ≠ [] →
      (l.dropWhile p).getLast? = l.getLast? := by
  intro l
  induction l with
  | nil => intro h; simp [List.dropWhile] at h
  | cons a r ih =>
    intro h
    rw [List.dropWhile_cons]
    by_cases ha : p a = true
    · rw [List.dropWhile_cons, if_pos ha] at h
      rw [if_pos ha, ih h]
      have hr : r ≠ [] := by
        intro hre; rw [hre] at h; simp [List.dropWhile] at h
      cases r with
      | nil => exact absurd rfl hr
      | cons x xs => simp [List.getLast?_cons_cons]
    · rw [if_neg ha]


/-- Trimming returns a contiguous infix of its input. -/
theorem trimWs_contiguous (l : List Char) : trimWs l <:+: l := by
  have h1 : l.dropWhile (fun c => jsWs c) <:+ l := List.dropWhile_suffix _
  have h2 : (l.dropWhile (fun c => jsWs c)).reverse.dropWhile (fun c => jsWs c) <:+
      (l.dropWhile (fun c => jsWs c)).reverse := List.dropWhile_suffix _
  have h3 : trimWs l <+: l.dropWhile (fun c => jsWs c) := by
    rw [← List.reverse_suffix]
    unfold trimWs
    rw [List.reverse_reverse]
    exact h2
  obtain ⟨t, ht⟩ := h3
  obtain ⟨s, hs⟩ := h1
  exact ⟨s, t, by rw [List.append_assoc, ht, hs]⟩

/-- Trimming introduces no new characters. -/
theorem mem_of_mem_trimWs (l : List Char) (c : Char) (h : c ∈ trimWs l) : c ∈ l :=
  (trimWs_contiguous l).sublist.subset h

/-- Trimming preserves whitespace-adjacency freedom. -/
theorem wsAdjFree_trimWs (l : List Char) (h : WsAdjFree l) : WsAdjFree (trimWs l) :=
  List.Chain'.infix h (trimWs_contiguous l)

/-- A trimmed string does not start with whitespace. -/
theorem trim_head_not (l : List Char) (c : Char)
    (h : (trimWs l).head? = some c) : jsWs c = false := by
  unfold trimWs at h
  rw [List.head?_reverse] at h
  have hne : (l.dropWhile (fun c => jsWs c)).reverse.dropWhile (fun c => jsWs c) ≠ [] := by
    intro he; rw [he] at h; simp at h
  rw [getLast?_dropWhile_ne_nil _ _ hne, List.getLast?_reverse] at h
  exact head?_dropWhile_not _ l c h

/-- A trimmed string does not end with whitespace. -/
theorem trim_last_not (l : List Char) (c : Char)
    (h : (trimWs l).getLast? = some c) : jsWs c = false := by
  unfold trimWs at h
  rw [List.getLast?_reverse] at h
  exact head?_dropWhile_not _ _ c h

/-- `dropWhile` is the identity when the head already fails the predicate. -/
theorem dropWhile_eq_self_of_head (p : Char → Bool) (l : List Char)
    (h : ∀ c, l.head? = some c → p c = false) : l.dropWhile p = l := by
  cases l with
  | nil => rfl
  | cons a r => rw [List.dropWhile_cons, h a rfl]; simp

/-- A string with no whitespace at either end is a fixed point of trimming. -/
theorem trimWs_eq_self (l : List Char)
    (h1 : ∀ c, l.head? = some c → jsWs c = false)
    (h2 : ∀ c, l.getLast? = some c → jsWs c = false) : trimWs l = l := by
  unfold trimWs
  rw [dropWhile_eq_self_of_head _ l h1]
  rw [dropWhile_eq_self_of_head _ l.reverse
    (fun c hc => h2 c (by rwa [List.head?_reverse] at hc))]
  exact List.reverse_reverse l

/-- Every character surviving `cleanText` is printable ASCII. -/
theorem cleanText_mem_ascii (x : List Char) :
    ∀ c ∈ cleanText x, isPrintAscii c = true := by
  intro c hc
  rcases mem_collapseWs _ c (mem_of_mem_trimWs _ c hc) with h | h
  · rw [h]; decide
  · exact (List.mem_filter.mp (List.mem_filter.mp h).1).2

/-- No bullet or dash glyph survives `cleanText`. -/
theorem cleanText_mem_nobullet (x : List Char) :
    ∀ c ∈ cleanText x, isBulletGlyph c = false := by
  intro c hc
  rcases mem_collapseWs _ c (mem_of_mem_trimWs _ c hc) with h | h
  · rw [h]; decide
  · have := (List.mem_filter.mp h).2
    simpa using this

/-- `cleanText` output has no run of two or more whitespace characters. -/
theorem cleanText_wsAdjFree (x : List Char) : WsAdjFree (cleanText x) :=
  wsAdjFree_trimWs _ (wsAdjFree_collapseWs _)

/-- `cleanText` is idempotent. -/
theorem cleanText_idem (x : List Char) : cleanText (cleanText x) = cleanText x := by
  have hasc := cleanText_mem_ascii x
  have hadj := cleanText_wsAdjFree x
  have hhead : ∀ c, (cleanText x).head? = some c → jsWs c = false :=
    fun c hc => trim_head_not _ c hc
  have hlast : ∀ c, (cleanText x).getLast? = some c → jsWs c = false :=
    fun c hc => trim_last_not _ c hc
  have step1 : (cleanText x).filter (fun c => isPrintAscii c) = cleanText x :=
    List.filter_eq_self.mpr hasc
  have step2 : (cleanText x).filter (fun c => !isBulletGlyph c) = cleanText x :=
    List.filter_eq_self.mpr (fun c hc => by simp [cleanText_mem_nobullet x c hc])
  calc cleanText (cleanText x)
      = trimWs (collapseWs (((cleanText x).filter (fun c => isPrintAscii c)).filter
          (fun c => !isBulletGlyph c))) := rfl
    _ = trimWs (collapseWs (cleanText x)) := by rw [step1, step2]
    _ = trimWs (cleanText x) := by rw [collapseWs_eq_self _ hasc hadj]
    _ = cleanText x := trimWs_eq_self _ hhead hlast

/-- Printable ASCII excludes the control range, so revision A's control strip is a no-op after the ASCII filter. -/
theorem ascii_not_ctl {c : Char} (h : isPrintAscii c = true) : isCtl c = false := by
  have ha : 0x20 ≤ c.toNat ∧ c.toNat ≤ 0x7E := by
    simpa [isPrintAscii, Bool.and_eq_true, decide_eq_true_eq] using h
  simp only [isCtl, Bool.or_eq_false_iff, decide_eq_false_iff_not]
  omega

/-- Every character surviving revision A's `cleanText` is printable ASCII, whatever NFKD does. -/
theorem cleanTextNFKD_mem_ascii (nfkd : List Char → List Char) (x : List Char) :
    ∀ c ∈ cleanTextNFKD nfkd x, isPrintAscii c = true := by
  intro c hc
  rcases mem_collapseWs _ c (mem_of_mem_trimWs _ c hc) with h | h
  · rw [h]; decide
  · exact (List.mem_filter.mp (List.mem_filter.mp (List.mem_filter.mp h).1).1).2

/-- No bullet or dash glyph survives revision A's `cleanText`, whatever NFKD does. -/
theorem cleanTextNFKD_mem_nobullet (nfkd : List Char → List Char) (x : List Char) :
    ∀ c ∈ cleanTextNFKD nfkd x, isBulletGlyph c = false := by
  intro c hc
  rcases mem_collapseWs _ c (mem_of_mem_trimWs _ c hc) with h | h
  · rw [h]; decide
  · have := (List.mem_filter.mp (List.mem_filter.mp h).1).2
    simpa using this

/-- Revision A's `cleanText` is idempotent for any normalisation that fixes printable-ASCII strings (as Unicode NFKD does). -/
theorem cleanTextNFKD_idem (nfkd : List Char → List Char)
    (hn : ∀ s, (∀ c ∈ s, isPrintAscii c = true) → nfkd s = s) (x : List Char) :
    cleanTextNFKD nfkd (cleanTextNFKD nfkd x) = cleanTextNFKD nfkd x := by
  have hasc := cleanTextNFKD_mem_ascii nfkd x
  have hadj : WsAdjFree (cleanTextNFKD nfkd x) :=
    wsAdjFree_trimWs _ (wsAdjFree_collapseWs _)
  have hhead : ∀ c, (cleanTextNFKD nfkd x).head? = some c → jsWs c = false :=
    fun c hc => trim_head_not _ c hc
  have hlast : ∀ c, (cleanTextNFKD nfkd x).getLast? = some c → jsWs c = false :=
    fun c hc => trim_last_not _ c hc
  have step0 : nfkd (cleanTextNFKD nfkd x) = cleanTextNFKD nfkd x := hn _ hasc
  have step1 : (cleanTextNFKD nfkd x).filter (fun c => isPrintAscii c) =
      cleanTextNFKD nfkd x := List.filter_eq_self.mpr hasc
  have step2 : (cleanTextNFKD nfkd x).filter (fun c => !isBulletGlyph c) =
      cleanTextNFKD nfkd x :=
    List.filter_eq_self.mpr (fun c hc => by simp [cleanTextNFKD_mem_nobullet nfkd x c hc])
  have step3 : (cleanTextNFKD nfkd x).filter (fun c => !isCtl c) =
      cleanTextNFKD nfkd x :=
    List.filter_eq_self.mpr (fun c hc => by simp [ascii_not_ctl (hasc c hc)])
  calc cleanTextNFKD nfkd (cleanTextNFKD nfkd x)
      = trimWs (collapseWs ((((nfkd (cleanTextNFKD nfkd x)).filter
          (fun c => isPrintAscii c)).filter (fun c => !isBulletGlyph c)).filter
          (fun c => !isCtl c))) := rfl
    _ = trimWs (collapseWs (cleanTextNFKD nfkd x)) := by
          rw [step0, step1, step2, step3]
    _ = trimWs (cleanTextNFKD nfkd x) := by rw [collapseWs_eq_self _ hasc hadj]
    _ = cleanTextNFKD nfkd x := trimWs_eq_self _ hhead hlast

/-- Claim C2: `clean` is idempotent; its output contains only printable ASCII
characters (x20-x7E), contains no bullet or dash glyph, contains no run of two
or more whitespace characters, and has no leading or trailing whitespace; in
particular cleaning "Résumé • Summary" leaves no bullet glyph and no accented
character.  The final conjunct extends idempotence to revision A's variant for
every normalisation that fixes printable-ASCII strings, as Unicode NFKD does. -/
theorem claim_C2 :
    (∀ x, cleanText (cleanText x) = cleanText x)
  ∧ (∀ x, ∀ c ∈ cleanText x,
      (0x20 ≤ c.toNat ∧ c.toNat ≤ 0x7E) ∧ isBulletGlyph c = false)
  ∧ (∀ x, WsAdjFree (cleanText x))
  ∧ (∀ x c, (cleanText x).head? = some c → jsWs c = false)
  ∧ (∀ x c, (cleanText x).getLast? = some c → jsWs c = false)
  ∧ ((cleanText "Résumé • Summary".data).all
      (fun c => !isBulletGlyph c && c.toNat ≤ 0x7E) = true)
  ∧ (∀ nfkd, (∀ s, (∀ c ∈ s, isPrintAscii c = true) → nfkd s = s) →
      ∀ x, cleanTextNFKD nfkd (cleanTextNFKD nfkd x) = cleanTextNFKD nfkd x) := by
  refine ⟨cleanText_idem, ?_, cleanText_wsAdjFree, fun x c h => trim_head_not _ c h, ?_, by decide, ?_⟩
  · intro x c hc
    refine ⟨?_, cleanText_mem_nobullet x c hc⟩
    have := cleanText_mem_ascii x c hc
    simpa [isPrintAscii, Bool.and_eq_true, decide_eq_true_eq] using this
  · intro x c h
    exact trim_last_not _ c h
  · exact cleanTextNFKD_idem

/-- Witness for claim C2: the NFKD conjunct applied at the identity-on-ASCII
normalisation and the example string, its hypothesis discharged by `rfl`. -/
theorem claim_C2_w :
    cleanTextNFKD nfkdOnAscii (cleanTextNFKD nfkdOnAscii "Résumé • Summary".data) =
      cleanTextNFKD nfkdOnAscii "Résumé • Summary".data :=
  claim_C2.2.2.2.2.2.2 nfkdOnAscii (fun _ _ => rfl) "Résumé • Summary".data

/-- The parser reads back the digit characters the pad functions emit. -/
theorem digitVal_digitChar (k : ℕ) (hk : k < 10) : digitVal? (digitChar k) = some k := by
  interval_cases k <;> decide

/-- A well-formed `YYYY-MM` input with the appended day parses to its year and month. -/
theorem jsParse_pad (y m : ℕ) (hy : y ≤ 9999) (hm1 : 1 ≤ m) (hm2 : m ≤ 12) :
    jsParseYMD01 ((pad4 y ++ '-' :: pad2 m) ++ "-01".data) = some (y, m) := by
  have d1 := digitVal_digitChar (y / 1000 % 10) (Nat.mod_lt _ (by norm_num))
  have d2 := digitVal_digitChar (y / 100 % 10) (Nat.mod_lt _ (by norm_num))
  have d3 := digitVal_digitChar (y / 10 % 10) (Nat.mod_lt _ (by norm_num))
  have d4 := digitVal_digitChar (y % 10) (Nat.mod_lt _ (by norm_num))
  have d5 := digitVal_digitChar (m / 10 % 10) (Nat.mod_lt _ (by norm_num))
  have d6 := digitVal_digitChar (m % 10) (Nat.mod_lt _ (by norm_num))
  show jsParseYMD01 [digitChar (y / 1000 % 10), digitChar (y / 100 % 10),
      digitChar (y / 10 % 10), digitChar (y % 10), '-', digitChar (m / 10 % 10),
      digitChar (m % 10), '-', '0', '1'] = some (y, m)
  rw [jsParseYMD01]
  rw [if_pos ⟨rfl, rfl, rfl, rfl⟩]
  rw [d1, d2, d3, d4, d5, d6]
  have hy' : 1000 * (y / 1000 % 10) + 100 * (y / 100 % 10) + 10 * (y / 10 % 10) + y % 10 = y := by
    omega
  have hm' : 10 * (m / 10 % 10) + m % 10 = m := by omega
  simp only [hy', hm']
  rw [if_pos ⟨hm1, hm2⟩]

/-- A digit never lowercases to the letter p, so a `YYYY-MM` input is not `"present"`. -/
theorem toLower_digit_ne_p (k : ℕ) (hk : k < 10) : Char.toLower (digitChar k) ≠ 'p' := by
  interval_cases k <;> decide

/-- Every well-formed `YYYY-MM` input renders as the short month name followed by the year. -/
theorem formatDate_pad (y m : ℕ) (b : Bool) (_hy1 : 1 ≤ y) (hy : y ≤ 9999)
    (hm1 : 1 ≤ m) (hm2 : m ≤ 12) :
    formatDate (some (pad4 y ++ '-' :: pad2 m)) b = monthAbbrev m ++ ' ' :: natDigits y := by
  have hp : lowerStr (pad4 y ++ '-' :: pad2 m) ≠ "present".data := by
    intro h
    have h0 := congrArg List.head? h
    simp only [pad4, lowerStr, List.cons_append, List.map_cons, List.head?] at h0
    exact toLower_digit_ne_p (y / 1000 % 10) (Nat.mod_lt _ (by norm_num))
      (by simpa using h0)
  have hempty : (pad4 y ++ '-' :: pad2 m).isEmpty = false := by rw [pad4]; rfl
  unfold formatDate
  simp only [hempty, Bool.false_eq_true, if_false, if_neg hp]
  rw [jsParse_pad y m hy hm1 hm2]


/-- Claim C3 (code bug): for the non-empty input "hello", which is not
"present" and does not parse as a calendar date when a day component is
appended, `formatDate` returns the string "Invalid Date" - NOT the raw input.
JavaScript's `Date` constructor never throws; it yields an Invalid Date whose
`toLocaleString` is "Invalid Date", so the `catch \x7b return date; \x7d`
fallback implementing the claimed behaviour is dead code.  (The other half of
the claim, that the formatter never raises, does hold: the model is total.) -/
theorem claim_C3 :
    formatDate (some "hello".data) false = "Invalid Date".data
  ∧ formatDate (some "hello".data) false ≠ "hello".data := by
  exact ⟨by decide, by decide⟩

/-- Claim C9: `formatDate` yields "Present" for missing or empty input when
`isEndDate` is true and the empty string when it is false; the literal string
"present" in any letter case yields "Present"; every well-formed `YYYY-MM`
input renders as "Mon YYYY" (with the model's host timezone fixed at UTC), and
in particular "2020-09" renders as "Sep 2020". -/
theorem claim_C9 :
    formatDate none true = "Present".data
  ∧ formatDate none false = []
  ∧ formatDate (some []) true = "Present".data
  ∧ formatDate (some []) false = []
  ∧ (∀ s b, lowerStr s = "present".data → formatDate (some s) b = "Present".data)
  ∧ (∀ y m b, 1 ≤ y → y ≤ 9999 → 1 ≤ m → m ≤ 12 →
      formatDate (some (pad4 y ++ '-' :: pad2 m)) b = monthAbbrev m ++ ' ' :: natDigits y)
  ∧ formatDate (some "2020-09".data) false = "Sep 2020".data := by
  refine ⟨rfl, rfl, by decide, by decide, ?_, ?_, by decide⟩
  · intro s b h
    cases s with
    | nil => simp [lowerStr] at h
    | cons a r =>
      unfold formatDate
      simp only [List.isEmpty_cons, Bool.false_eq_true, if_false, h, if_pos]
  · intro y m b h1 h2 h3 h4
    exact formatDate_pad y m b h1 h2 h3 h4

/-- Witness for claim C9: the well-formed-input conjunct applied at year 2020,
month 9. -/
theorem claim_C9_w :
    formatDate (some (pad4 2020 ++ '-' :: pad2 9)) false =
      monthAbbrev 9 ++ ' ' :: natDigits 2020 :=
  claim_C9.2.2.2.2.2.1 2020 9 false (by norm_num) (by norm_num) (by norm_num) (by norm_num)

/-- Claim C5: `checkPageBreak` either starts exactly one new page, resets the
cursor to the top margin and returns true (when the cursor plus the required
space would exceed the printable area), or leaves the state untouched and
returns false; a single call never advances the page count by more than one. -/
theorem claim_C5 : ∀ (st : LayoutState) (req : ℚ),
    (pageHeightMm - 20 < st.y + req →
      checkPageBreak req st = (⟨marginMm, st.page + 1⟩, true))
  ∧ (st.y + req ≤ pageHeightMm - 20 →
      checkPageBreak req st = (st, false))
  ∧ (checkPageBreak req st).1.page ≤ st.page + 1 := by
  intro st req
  refine ⟨?_, ?_, ?_⟩
  · intro h; simp [checkPageBreak, h]
  · intro h; simp [checkPageBreak, not_lt.mpr h]
  · unfold checkPageBreak; split
    · simp
    · simp

/-- Witness for claim C5: both branches applied at concrete states. -/
theorem claim_C5_w :
    checkPageBreak 10 ⟨280, 1⟩ = (⟨marginMm, 2⟩, true)
  ∧ checkPageBreak 10 ⟨100, 1⟩ = (⟨100, 1⟩, false) :=
  ⟨(claim_C5 ⟨280, 1⟩ 10).1 (by norm_num [pageHeightMm]),
   (claim_C5 ⟨100, 1⟩ 10).2.1 (by norm_num [pageHeightMm])⟩

/-- Counterexample to claim C6: with four skills and the cursor at 50 on page
1, the two-column skills renderer's trace moves the cursor from 59 back to 50
with no intervening page break - the cursor is NOT monotonically
non-decreasing within a page. -/
theorem claim_C6_cex :
    pageMonoOk (renderSkillsInColumnsTrace [['J'], ['L'], ['P'], ['R']] ⟨50, 1⟩) = false := by
  norm_num [renderSkillsInColumnsTrace, colLoopTrace, checkPageBreak, lastState,
    pageMonoOk, skillsLineHeight, pageHeightMm, marginMm]

/-- The final state of the skills-renderer trace is its explicitly appended last assignment. -/
theorem lastState_shape (st s2 s4 : LayoutState) (t1 t2 : List LayoutState) :
    lastState st (st :: (t1 ++ s2 :: t2 ++ [s4])) = s4 := by
  unfold lastState
  have h : st :: (t1 ++ s2 :: t2 ++ [s4]) = (st :: (t1 ++ s2 :: t2)) ++ [s4] := by
    simp [List.cons_append, List.append_assoc]
  rw [h, List.getLast?_concat]
  rfl

/-- Claim C6 as amended: the two-column skills renderer rewinds the cursor to
the column start between columns (the counterexample above), but it never
finishes below its starting cursor: its final cursor is exactly the start plus
max(left, right column length) times the line height, and the trace begins at
the initial state. -/
theorem claim_C6 : ∀ (skills : List (List Char)) (st : LayoutState),
    (lastState st (renderSkillsInColumnsTrace skills st)).y
      = st.y + (max (skills.take ((skills.length + 1) / 2)).length
          (skills.drop ((skills.length + 1) / 2)).length : ℕ) * skillsLineHeight
  ∧ st.y ≤ (lastState st (renderSkillsInColumnsTrace skills st)).y
  ∧ (renderSkillsInColumnsTrace skills st).head? = some st := by
  intro skills st
  have h0 : lastState st (renderSkillsInColumnsTrace skills st)
      = ⟨st.y + (max (skills.take ((skills.length + 1) / 2)).length
          (skills.drop ((skills.length + 1) / 2)).length : ℕ) * skillsLineHeight,
         (lastState ⟨st.y, (lastState st (colLoopTrace
            (skills.take ((skills.length + 1) / 2)) st)).page⟩
           (colLoopTrace (skills.drop ((skills.length + 1) / 2))
             ⟨st.y, (lastState st (colLoopTrace
               (skills.take ((skills.length + 1) / 2)) st)).page⟩)).page⟩ := by
    simp only [renderSkillsInColumnsTrace]
    exact lastState_shape _ _ _ _ _
  refine ⟨by rw [h0], ?_, by simp only [renderSkillsInColumnsTrace]; rfl⟩
  rw [h0]
  have hnn : (0 : ℚ) ≤ (max (skills.take ((skills.length + 1) / 2)).length
      (skills.drop ((skills.length + 1) / 2)).length : ℕ) * skillsLineHeight := by
    have : (0 : ℚ) ≤ skillsLineHeight := by norm_num [skillsLineHeight]
    positivity
  exact le_add_of_nonneg_right hnn

/-- Counterexample to claim C8: no threshold makes the renderer switch TO the
single flowing line above it and TO two columns below it, as the claim states:
five skills already render in two columns while three render on a single line,
so the claimed direction is inverted for every threshold. -/
theorem claim_C8_cex :
    ¬ ∃ T : ℕ,
      (∀ l : List (List Char), T ≤ l.length →
        isColumnsLayout (skillsLayoutChoice l) = false)
      ∧ (∀ l : List (List Char), l.length < T →
        isColumnsLayout (skillsLayoutChoice l) = true) := by
  rintro ⟨T, h1, h2⟩
  by_cases hT : T ≤ 5
  · have := h1 [['J'], ['L'], ['P'], ['R'], ['S']]
      (by simp only [List.length_cons, List.length_nil]; omega)
    simp [skillsLayoutChoice, minSkillsForColumns, isColumnsLayout] at this
  · have := h2 [['J'], ['L'], ['P']]
      (by simp only [List.length_cons, List.length_nil]; omega)
    simp [skillsLayoutChoice, minSkillsForColumns, isColumnsLayout] at this

/-- Claim C8 as amended: the skills renderer switches from a single flowing
line to a two-column split once the skill count reaches the fixed threshold of
4 (not the other way around); whenever the two-column layout is used, the left
column receives exactly the first ceil(n/2) skills and the right column the
remainder. -/
theorem claim_C8 : ∀ skills : List (List Char),
    (minSkillsForColumns ≤ skills.length →
      ∃ left right, skillsLayoutChoice skills = SkillsLayout.columns left right
        ∧ left ++ right = skills
        ∧ left.length = (skills.length + 1) / 2)
  ∧ (skills.length < minSkillsForColumns →
      skillsLayoutChoice skills = SkillsLayout.horizontal skills) := by
  intro skills
  constructor
  · intro h
    have h4 : 4 ≤ skills.length := by simpa [minSkillsForColumns] using h
    refine ⟨skills.take ((skills.length + 1) / 2), skills.drop ((skills.length + 1) / 2),
      ?_, List.take_append_drop _ _, ?_⟩
    · rw [skillsLayoutChoice, if_pos h]
    · rw [List.length_take]
      omega
  · intro h
    have h4 : skills.length < 4 := by simpa [minSkillsForColumns] using h
    rw [skillsLayoutChoice, if_neg (by simp only [minSkillsForColumns]; omega)]

/-- Witness for claim C8: the below-threshold branch at a three-skill list. -/
theorem claim_C8_w :
    skillsLayoutChoice [['J'], ['L'], ['P']] =
      SkillsLayout.horizontal [['J'], ['L'], ['P']] :=
  (claim_C8 _).2 (by decide)

/-- Counterexample to claim C4: on the input list ["AI", "to", "a", "early",
"JavaScript"] the surviving skill list is exactly ["JavaScript"]; contrary to
the claim, "AI" is NOT included - the length-under-3 gate rejects it before
the all-caps acronym pattern is ever consulted. -/
theorem claim_C4_cex :
    skillsArray1 nfkdOnAscii
      [SkillInput.str "AI".data, SkillInput.str "to".data, SkillInput.str "a".data,
       SkillInput.str "early".data, SkillInput.str "JavaScript".data]
      = ["JavaScript".data]
  ∧ "AI".data ∉ skillsArray1 nfkdOnAscii
      [SkillInput.str "AI".data, SkillInput.str "to".data, SkillInput.str "a".data,
       SkillInput.str "early".data, SkillInput.str "JavaScript".data] := by
  exact ⟨by decide, by decide⟩

/-- Claim C4 as amended: the filtered, capitalized, case-insensitively sorted
output for ["AI", "to", "a", "early", "JavaScript"] is ["JavaScript"]
(excluding "to", "a", "early", and also "AI"); in general `isValidSkill`
rejects every token whose trimmed form is shorter than 3 characters, rejects
every stoplist word, and otherwise accepts a token exactly when it looks
technical, starts with a capital letter, or is longer than 4 characters. -/
theorem claim_C4 :
    skillsArray1 nfkdOnAscii
      [SkillInput.str "AI".data, SkillInput.str "to".data, SkillInput.str "a".data,
       SkillInput.str "early".data, SkillInput.str "JavaScript".data]
      = ["JavaScript".data]
  ∧ (∀ s, (trimWs s).length < 3 → isValidSkill s = false)
  ∧ (∀ s, lowerStr (trimWs s) ∈ excludeWords → isValidSkill s = false)
  ∧ (∀ s, 3 ≤ (trimWs s).length → lowerStr (trimWs s) ∉ excludeWords →
      (isValidSkill s = true ↔ (isTechnicalSkill (trimWs s) = true
        ∨ startsWithCapital (trimWs s) = true ∨ 4 < (trimWs s).length))) := by
  refine ⟨by decide, ?_, ?_, ?_⟩
  · intro s h
    rw [isValidSkill]
    simp only [if_pos h]
  · intro s h
    rw [isValidSkill]
    have hc : excludeWords.contains (lowerStr (trimWs s)) = true := by
      simpa [List.contains] using List.elem_iff.mpr h
    by_cases hlen : (trimWs s).length < 3
    · simp only [if_pos hlen]
    · simp only [if_neg hlen, if_pos hc]
  · intro s h1 h2
    rw [isValidSkill]
    have hc : excludeWords.contains (lowerStr (trimWs s)) = false := by
      by_contra hcon
      have : excludeWords.contains (lowerStr (trimWs s)) = true := by
        revert hcon
        cases excludeWords.contains (lowerStr (trimWs s))
        · intro hcon; exact absurd rfl hcon
        · intro hcon; rfl
      exact h2 (List.elem_iff.mp (by simpa [List.contains] using this))
    rw [if_neg (by omega : ¬(trimWs s).length < 3), hc]
    simp only [Bool.false_eq_true, if_false, Bool.or_eq_true, decide_eq_true_eq]
    tauto

/-- Witness for claim C4: the short-token conjunct applied at "to". -/
theorem claim_C4_w : isValidSkill "to".data = false :=
  claim_C4.2.1 "to".data (by decide)

/-- `isValidName` spelled out: length strictly between 1 and 100 and at least one ASCII letter. -/
theorem isValidName_iff (n : List Char) :
    isValidName n = true ↔
      (1 < n.length ∧ n.length < 100 ∧ n.any isAsciiLetter = true) := by
  simp [isValidName, Bool.and_eq_true, decide_eq_true_eq, and_assoc]

/-- Claim C7: `validateReference` either keeps the name or installs the fixed
placeholder; it keeps a truthy name exactly when the sanitized name has length
strictly between 1 and 100 and contains a letter, and installs the placeholder
otherwise; it clears (to undefined) a truthy email whose sanitized form fails
the local@domain.tld shape and keeps every other email; title, company,
relationship and phone pass through the sanitizer unchanged; in particular an
empty name yields the placeholder and "not-an-email" yields a cleared email.
The statement holds for every normalisation function, so in particular for
Unicode NFKD. -/
theorem claim_C7 :
    (∀ (nfkd : List Char → List Char) (ref : Reference),
      ((validateReference nfkd ref).name = ref.name ∨
        (validateReference nfkd ref).name = some placeholderName)
    ∧ (optTruthy ref.name = true →
        1 < (cleanTextNFKD nfkd (ref.name.getD [])).length →
        (cleanTextNFKD nfkd (ref.name.getD [])).length < 100 →
        (cleanTextNFKD nfkd (ref.name.getD [])).any isAsciiLetter = true →
        (validateReference nfkd ref).name = ref.name)
    ∧ (optTruthy ref.name = false →
        (validateReference nfkd ref).name = some placeholderName)
    ∧ (isValidName (cleanTextNFKD nfkd (ref.name.getD [])) = false →
        (validateReference nfkd ref).name = some placeholderName)
    ∧ (optTruthy ref.email = true →
        isValidEmail (cleanTextNFKD nfkd (ref.email.getD [])) = false →
        (validateReference nfkd ref).email = none)
    ∧ (optTruthy ref.email = true →
        isValidEmail (cleanTextNFKD nfkd (ref.email.getD [])) = true →
        (validateReference nfkd ref).email = ref.email)
    ∧ (optTruthy ref.email = false → (validateReference nfkd ref).email = ref.email)
    ∧ ((validateReference nfkd ref).title =
        if optTruthy ref.title then some (cleanTextNFKD nfkd (ref.title.getD []))
        else ref.title)
    ∧ ((validateReference nfkd ref).company =
        if optTruthy ref.company then some (cleanTextNFKD nfkd (ref.company.getD []))
        else ref.company)
    ∧ ((validateReference nfkd ref).relationship =
        if optTruthy ref.relationship then
          some (cleanTextNFKD nfkd (ref.relationship.getD []))
        else ref.relationship)
    ∧ ((validateReference nfkd ref).phone =
        if optTruthy ref.phone then some (cleanTextNFKD nfkd (ref.phone.getD []))
        else ref.phone))
  ∧ (validateReference nfkdOnAscii { name := some [] }).name = some placeholderName
  ∧ (validateReference nfkdOnAscii { email := some "not-an-email".data }).email = none := by
  refine ⟨?_, by decide, by decide⟩
  intro nfkd ref
  refine ⟨?_, ?_, ?_, ?_, ?_, ?_, ?_, rfl, rfl, rfl, rfl⟩
  · by_cases h : (!optTruthy ref.name ||
        !isValidName (cleanTextNFKD nfkd (ref.name.getD []))) = true
    · exact Or.inr (by simp [validateReference, h])
    · exact Or.inl (by simp [validateReference, h])
  · intro h1 h2 h3 h4
    have hv : isValidName (cleanTextNFKD nfkd (ref.name.getD [])) = true :=
      (isValidName_iff _).mpr ⟨h2, h3, h4⟩
    simp [validateReference, h1, hv]
  · intro h1
    simp [validateReference, h1]
  · intro h1
    simp [validateReference, h1]
  · intro h1 h2
    simp [validateReference, h1, h2]
  · intro h1 h2
    simp [validateReference, h1, h2]
  · intro h1
    simp [validateReference, h1]

/-- Witness for claim C7: the email-clearing conjunct at a concrete record. -/
theorem claim_C7_w :
    (validateReference nfkdOnAscii
      { name := some "Pat Smith".data, email := some "not-an-email".data }).email = none :=
  (claim_C7.1 nfkdOnAscii
    { name := some "Pat Smith".data, email := some "not-an-email".data }).2.2.2.2.1
    (by decide) (by decide)

/-- Claim C10: `cleanText` is total at the exporter's internal boundary: every
non-string argument (null, undefined, boolean, number, object, array) and the
empty string map to the empty string, so drawing primitives can apply it to
arbitrarily-shaped field values; being a Lean function, the model cannot
raise. -/
theorem claim_C10 : ∀ v : JSVal,
    (isStringVal v = false ∨ v = JSVal.strV []) → cleanTextJS v = [] := by
  intro v h
  rcases h with h | h
  · cases v with
    | strV s => simp [isStringVal] at h
    | nullV => rfl
    | undefV => rfl
    | boolV b => rfl
    | numV q => rfl
    | objV => rfl
    | arrV => rfl
  · rw [h]
    rfl

/-- Witness for claim C10: a non-string and the empty string. -/
theorem claim_C10_w :
    cleanTextJS JSVal.nullV = [] ∧ cleanTextJS (JSVal.strV []) = [] :=
  ⟨claim_C10 JSVal.nullV (Or.inl rfl), claim_C10 (JSVal.strV []) (Or.inr rfl)⟩

/-- Claim C1 (code bug in revision B): for the document with only
`personal.fullName = "Jane Doe"` and every section array empty, revision B's
`generateTextPDF` returns at the empty-skills guard with NO section rendered
but also WITHOUT reaching `pdf.save` - the export produces no document.  In
revision A, which replaced the early return with a guard, every document with
a truthy `fullName` and all section arrays empty reaches the final save and
renders no Experience, Education, or Skills section, as the claim states. -/
theorem claim_C1 :
    (gen2 janeDoe).saved = false
  ∧ (gen2 janeDoe).sections = []
  ∧ (∀ (rd : ResumeDataM) (nfkd : List Char → List Char),
      optTruthy (rd.personal.bind PersonalRec.fullName) = true →
      optListEmpty rd.experience = true → optListEmpty rd.education = true →
      optListEmpty rd.skills = true → optListEmpty rd.projects = true →
      optListEmpty rd.certifications = true → optListEmpty rd.languages = true →
      optListEmpty rd.interests = true → optListEmpty rd.references = true →
      (gen1 nfkd rd).saved = true
      ∧ "Professional Experience".data ∉ (gen1 nfkd rd).sections
      ∧ "Education".data ∉ (gen1 nfkd rd).sections
      ∧ "Core Competencies & Technical Skills".data ∉ (gen1 nfkd rd).sections) := by
  refine ⟨rfl, rfl, ?_⟩
  intro rd nfkd _hname hexp hedu hsk hproj hcert hlang hint href
  have et : ∀ {α : Type} (o : Option (List α)),
      optListEmpty o = true → optListTruthy o = false := by
    intro α o h
    cases o with
    | none => rfl
    | some l => simpa [optListEmpty, optListTruthy] using h
  have h1 := et rd.experience hexp
  have h2 := et rd.education hedu
  have h3 := et rd.skills hsk
  have h4 := et rd.projects hproj
  have h5 := et rd.certifications hcert
  have h6 := et rd.languages hlang
  have h7 := et rd.interests hint
  have h8 := et rd.references href
  simp only [gen1, h1, h2, h3, h4, h5, h6, h7, h8, Bool.false_and,
    Bool.false_eq_true, if_false, List.append_nil]
  refine ⟨trivial, ?_⟩
  cases hsv : optTruthy (rd.personal.bind PersonalRec.summary) with
  | true =>
    simp only [hsv, if_true]
    refine ⟨?_, ?_, ?_⟩ <;> decide
  | false =>
    simp only [hsv, Bool.false_eq_true, if_false]
    simp

/-- Witness for claim C1: the revision-A conjunct applied at the Jane Doe
document. -/
theorem claim_C1_w :
    (gen1 nfkdOnAscii janeDoe).saved = true
  ∧ "Professional Experience".data ∉ (gen1 nfkdOnAscii janeDoe).sections
  ∧ "Education".data ∉ (gen1 nfkdOnAscii janeDoe).sections
  ∧ "Core Competencies & Technical Skills".data ∉ (gen1 nfkdOnAscii janeDoe).sections :=
  claim_C1.2.2 janeDoe nfkdOnAscii (by decide) rfl rfl rfl rfl rfl rfl rfl rfl
